import Mathlib

/-!
Shallow embedding of `imageclassification_nn_dropout.py`.

The script builds a feed-forward classifier for FashionMNIST, trains it with
SGD, evaluates it, and keeps the best checkpoint by validation loss.  All
numeric tensor work is delegated to the framework; here tensors are lists of
rationals, a model is the ordered list of its layers (affine layers carry
their weight matrix and bias inline, as `nn.Linear` does), and the stochastic
zeroing performed by `nn.Dropout` in training mode draws its mask bits from an
explicitly threaded stream of booleans.  The scalar cross-entropy loss and the
gradients produced by reverse-mode differentiation are oracles (function
parameters): the claims under scrutiny never depend on their numeric values,
only on how the surrounding orchestration code uses them.
-/

abbrev Vec := List ℚ
abbrev Mat := List (List ℚ)
abbrev Sample := Vec × ℕ
abbrev Batch := List Sample
abbrev Rng := List Bool
abbrev LinParam := Mat × Vec
abbrev Snapshot := List LinParam
abbrev Store := List (String × Snapshot)

/-- A single `nn.Module` making up the `nn.Sequential` model (nested
`nn.Sequential` groups are flattened into the layer list, which is the
order in which `forward` applies them). -/
inductive Layer : Type where
  | flatten : Layer
  | linear (inF outF : ℕ) (W : Mat) (b : Vec) : Layer
  | relu : Layer
  | dropout (p : ℚ) : Layer
deriving DecidableEq

def dotQ (xs ys : Vec) : ℚ := (List.zip xs ys).foldl (fun a q => a + q.1 * q.2) 0

def matvec (W : Mat) (v : Vec) : Vec := W.map (fun row => dotQ row v)

def mkMatrix (f : ℕ → ℕ → ℚ) (rows cols : ℕ) : Mat :=
  (List.range rows).map (fun i => (List.range cols).map (fun j => f i j))

/-- `nn.Linear(inF, outF)`: weight of shape `(outF, inF)` and bias of length
`outF`, entries drawn from the framework's (unspecified) initialization,
modelled by the entry oracles `wInit` and `bInit`. -/
def nnLinear (wInit : ℕ → ℕ → ℚ) (bInit : ℕ → ℚ) (inF outF : ℕ) : Layer :=
  Layer.linear inF outF (mkMatrix wInit outF inF) ((List.range outF).map bInit)

/-- `create_model(hidden_dims)`: Flatten, then `Linear(784, h0), ReLU`, then a
`Linear, ReLU` block per consecutive pair of hidden widths, then the final
`Linear(h_last, 10)` with no trailing activation.  `hidden_dims[0]` raises on
an empty list, hence `Option`. -/
def create_model (wInit : ℕ → ℕ → ℚ) (bInit : ℕ → ℚ) : List ℕ → Option (List Layer)
  | [] => none
  | h :: t =>
    some ([Layer.flatten, nnLinear wInit bInit (28 * 28) h, Layer.relu] ++
      (List.zip (h :: t).dropLast (h :: t).tail).flatMap
        (fun io => [nnLinear wInit bInit io.1 io.2, Layer.relu]) ++
      [nnLinear wInit bInit ((h :: t).getLast (List.cons_ne_nil h t)) 10])

/-- `create_model_with_dropout(hidden_dims, p)`: same as `create_model` but
with an `nn.Dropout(p)` after every ReLU of the hidden blocks.  `nn.Dropout`
rejects a drop probability outside `[0, 1]`. -/
def create_model_with_dropout (wInit : ℕ → ℕ → ℚ) (bInit : ℕ → ℚ)
    (hiddenDims : List ℕ) (p : ℚ) : Option (List Layer) :=
  if p < 0 ∨ 1 < p then none else
  match hiddenDims with
  | [] => none
  | h :: t =>
    some ([Layer.flatten, nnLinear wInit bInit (28 * 28) h, Layer.relu, Layer.dropout p] ++
      (List.zip (h :: t).dropLast (h :: t).tail).flatMap
        (fun io => [nnLinear wInit bInit io.1 io.2, Layer.relu, Layer.dropout p]) ++
      [nnLinear wInit bInit ((h :: t).getLast (List.cons_ne_nil h t)) 10])

def takeBits (n : ℕ) (r : Rng) : List Bool × Rng :=
  (List.take n r ++ List.replicate (n - r.length) false, List.drop n r)

/-- Forward pass of one layer.  In training mode a dropout layer consumes one
mask bit per coordinate, zeroing the coordinate or rescaling it by
`1 / (1 - p)`; in eval mode dropout is the identity and consumes nothing. -/
def applyLayer (training : Bool) (l : Layer) (v : Vec) (r : Rng) : Vec × Rng :=
  match l with
  | Layer.flatten => (v, r)
  | Layer.linear _ _ W b => (List.zipWith (fun x y => x + y) (matvec W v) b, r)
  | Layer.relu => (v.map (fun x => max x 0), r)
  | Layer.dropout p =>
    if training then
      let m := takeBits v.length r
      ((List.zip v m.1).map (fun xm => if xm.2 then 0 else xm.1 / (1 - p)), m.2)
    else (v, r)

def forwardVec (training : Bool) : List Layer → Vec → Rng → Vec × Rng
  | [], v, r => (v, r)
  | l :: ls, v, r =>
    let vr := applyLayer training l v r
    forwardVec training ls vr.1 vr.2

def forwardBatch (training : Bool) (ls : List Layer) : Batch → Rng → List Vec × Rng
  | [], r => ([], r)
  | s :: ss, r =>
    let vr := forwardVec training ls s.1 r
    let rest := forwardBatch training ls ss vr.2
    (vr.1 :: rest.1, rest.2)

/-- One layer in eval mode (dropout inactive): what `forwardVec false` computes. -/
def evalLayer (l : Layer) (v : Vec) : Vec :=
  match l with
  | Layer.flatten => v
  | Layer.linear _ _ W b => List.zipWith (fun x y => x + y) (matvec W v) b
  | Layer.relu => v.map (fun x => max x 0)
  | Layer.dropout _ => v

def evalVec (ls : List Layer) (v : Vec) : Vec := ls.foldl (fun w l => evalLayer l w) v

/-- `torch.argmax` over a vector of scores: index of the first maximum. -/
def argmaxFrom : ℕ → ℕ → ℚ → Vec → ℕ
  | _, bi, _, [] => bi
  | i, bi, bv, x :: xs =>
    if bv < x then argmaxFrom (i + 1) i x xs else argmaxFrom (i + 1) bi bv xs

def argmaxIdx : Vec → ℕ
  | [] => 0
  | x :: xs => argmaxFrom 1 0 x xs

/-- Number of samples whose arg-max prediction equals the label. -/
def countCorrect (preds : List Vec) (labels : List ℕ) : ℕ :=
  (List.zip preds labels).countP (fun pl => decide (argmaxIdx pl.1 = pl.2))

/-- `model.state_dict()`: the (weight, bias) pairs of the affine layers, in
model order. -/
def state_dict : List Layer → Snapshot
  | [] => []
  | Layer.linear _ _ W b :: ls => (W, b) :: state_dict ls
  | _ :: ls => state_dict ls

def zeroLike (s : Snapshot) : Snapshot :=
  s.map (fun q => (q.1.map (fun row => row.map (fun _ => 0)), q.2.map (fun _ => 0)))

def addMat (A B : Mat) : Mat := List.zipWith (List.zipWith (fun x y => x + y)) A B

def addVec (a b : Vec) : Vec := List.zipWith (fun x y => x + y) a b

def addSnap (s t : Snapshot) : Snapshot :=
  List.zipWith (fun q g => (addMat q.1 g.1, addVec q.2 g.2)) s t

def sgdMat (lr : ℚ) (W G : Mat) : Mat :=
  List.zipWith (List.zipWith (fun w g => w - lr * g)) W G

def sgdVec (lr : ℚ) (b g : Vec) : Vec := List.zipWith (fun w gg => w - lr * gg) b g

/-- `optimizer.step()` for plain SGD: every affine layer's parameters move
against its entry of the gradient snapshot. -/
def sgdStepLayers (lr : ℚ) : List Layer → Snapshot → List Layer
  | [], _ => []
  | Layer.linear i o W b :: ls, [] => Layer.linear i o W b :: sgdStepLayers lr ls []
  | Layer.linear i o W b :: ls, g :: gs =>
    Layer.linear i o (sgdMat lr W g.1) (sgdVec lr b g.2) :: sgdStepLayers lr ls gs
  | l :: ls, gs => l :: sgdStepLayers lr ls gs

/-- The model together with the autograd state the script manipulates:
parameter gradients and the `train()`/`eval()` mode flag. -/
structure Net where
  layers : List Layer
  grads : Snapshot
  training : Bool
deriving DecidableEq

/-- `cross_entropy(preds, labels)` — an oracle: a pure scalar function of the
predicted score vectors and the integer labels. -/
abbrev LossFn := List Vec → List ℕ → ℚ

/-- `loss.backward()`'s contribution to the parameter gradients — an oracle:
a pure function of the current parameters and the batch. -/
abbrev GradFn := List Layer → Batch → Snapshot

/-- The body of `train_one_epoch`'s loop for one batch:
`optimizer.zero_grad()`, forward pass in the model's current mode,
`cross_entropy`, `loss.backward()` (gradients accumulate onto the cleared
gradients), `optimizer.step()`. -/
def processBatch (lossFn : LossFn) (gradFn : GradFn) (lr : ℚ) (net : Net)
    (b : Batch) (r : Rng) : Net × Rng × ℚ :=
  let g0 := zeroLike (state_dict net.layers)
  let pr := forwardBatch net.training net.layers b r
  let loss := lossFn pr.1 (b.map Prod.snd)
  let g := addSnap g0 (gradFn net.layers b)
  (⟨sgdStepLayers lr net.layers g, g, net.training⟩, pr.2, loss)

/-- The `for batch, labels in dataloader` loop of `train_one_epoch`, collecting
the per-batch `loss.item()` values in iteration order. -/
def runBatches (lossFn : LossFn) (gradFn : GradFn) (lr : ℚ) :
    Net → List Batch → Rng → Net × Rng × List ℚ
  | net, [], r => (net, r, [])
  | net, b :: bs, r =>
    let s := processBatch lossFn gradFn lr net b r
    let rest := runBatches lossFn gradFn lr s.1 bs s.2.1
    (rest.1, rest.2.1, s.2.2 :: rest.2.2)

/-- `train_one_epoch(model, dataloader, optimizer)`: run the batch loop, then
return `sum(losses) / len(losses)`; on an empty dataloader the division by
zero raises (`none`). -/
def train_one_epoch (lossFn : LossFn) (gradFn : GradFn) (lr : ℚ) (net : Net)
    (batches : List Batch) (r : Rng) : Net × Rng × Option ℚ :=
  let res := runBatches lossFn gradFn lr net batches r
  (res.1, res.2.1,
    if res.2.2 = [] then none
    else some (res.2.2.sum / ((res.2.2.length : ℕ) : ℚ)))

/-- One batch of `validate`'s loop: forward in eval mode, `cross_entropy`,
and the batch accuracy `sum(argmax(preds) == labels) / len(labels)`; the
accuracy division raises on an empty batch (`none`). -/
def evalOneBatch (lossFn : LossFn) (ls : List Layer) (b : Batch) (r : Rng) :
    Rng × ℚ × Option ℚ :=
  let pr := forwardBatch false ls b r
  (pr.2, lossFn pr.1 (b.map Prod.snd),
    if b = [] then none
    else some ((countCorrect pr.1 (b.map Prod.snd) : ℚ) / ((b.length : ℕ) : ℚ)))

/-- `validate`'s loop over the dataloader: per-batch losses and accuracies in
order; `none` if some batch raised inside the loop. -/
def runEval (lossFn : LossFn) (ls : List Layer) :
    List Batch → Rng → Rng × Option (List ℚ × List ℚ)
  | [], r => (r, some ([], []))
  | b :: bs, r =>
    let e := evalOneBatch lossFn ls b r
    match e.2.2 with
    | none => (e.1, none)
    | some a =>
      let rest := runEval lossFn ls bs e.1
      match rest.2 with
      | none => (rest.1, none)
      | some la => (rest.1, some (e.2.1 :: la.1, a :: la.2))

/-- `validate(model, dataloader)`: `model.eval()`, the loop (under
`torch.no_grad()`), `model.train()`, then the two means over batches.  An
error inside the loop propagates before `model.train()` runs; the
mean-over-zero-batches division raises after it. -/
def validate (lossFn : LossFn) (net : Net) (batches : List Batch) (r : Rng) :
    Net × Rng × Option (ℚ × ℚ) :=
  let netE : Net := ⟨net.layers, net.grads, false⟩
  let res := runEval lossFn netE.layers batches r
  match res.2 with
  | none => (netE, res.1, none)
  | some la =>
    let netT : Net := ⟨netE.layers, netE.grads, true⟩
    if la.1 = [] then (netT, res.1, none)
    else (netT, res.1,
      some (la.1.sum / ((la.1.length : ℕ) : ℚ), la.2.sum / ((la.2.length : ℕ) : ℚ)))

/-- The observer (`callback`) passed to `train`: it receives the model, the
epoch index, both loss histories so far and the latest validation accuracy,
and may update its own external state `Ω`. -/
abbrev CB (Ω : Type) := Ω → List Layer → ℕ → List ℚ → List ℚ → ℚ → Ω

/-- The `for epoch in range(n_epochs)` loop of `train`, with `k` epochs left
to run and `epoch` the index of the next one.  Exceptions from
`train_one_epoch` or `validate` abort the loop (`none` result). -/
def trainLoop {Ω : Type} (lossFn : LossFn) (gradFn : GradFn) (lr : ℚ) (cb : CB Ω)
    (trainB valB : List Batch) :
    ℕ → ℕ → Net → List ℚ → List ℚ → Ω → Rng →
      Option (List ℚ × List ℚ) × Net × Ω × Rng
  | 0, _, net, tl, vl, obs, r => (some (tl, vl), net, obs, r)
  | k + 1, epoch, net, tl, vl, obs, r =>
    let t := train_one_epoch lossFn gradFn lr net trainB r
    match t.2.2 with
    | none => (none, t.1, obs, t.2.1)
    | some tloss =>
      let v := validate lossFn t.1 valB t.2.1
      match v.2.2 with
      | none => (none, v.1, obs, v.2.1)
      | some lv =>
        let tl' := tl ++ [tloss]
        let vl' := vl ++ [lv.1]
        trainLoop lossFn gradFn lr cb trainB valB k (epoch + 1) v.1 tl' vl'
          (cb obs v.1.layers epoch tl' vl' lv.2) v.2.1

/-- `train(model, train_loader, val_loader, optimizer, n_epochs, callback)`:
run the epoch loop from epoch 0 with empty histories and return
`(train_losses, val_losses)`. -/
def train {Ω : Type} (lossFn : LossFn) (gradFn : GradFn) (lr : ℚ) (net : Net)
    (trainB valB : List Batch) (nEpochs : ℕ) (cb : CB Ω) (obs : Ω) (r : Rng) :
    Option (List ℚ × List ℚ) × Net × Ω × Rng :=
  trainLoop lossFn gradFn lr cb trainB valB nEpochs 0 net [] [] obs r

/-- Binary minimum on ℚ, written out so that it evaluates. -/
def qmin (a b : ℚ) : ℚ := if b ≤ a then b else a

/-- `min(val_losses)` — raises on an empty list, hence `Option`. -/
def minQ : List ℚ → Option ℚ
  | [] => none
  | x :: xs => some (xs.foldl qmin x)

/-- The guard of `save_model_if_improved`:
`val_losses[-1] == min(val_losses)`.  (The source raises on an empty history;
`train` always invokes the callback with a non-empty one.) -/
def shouldSave (valLosses : List ℚ) : Bool :=
  match valLosses.getLast?, minQ valLosses with
  | some last, some m => decide (last = m)
  | _, _ => false

/-- `torch.save(state_dict, filename)`: the persistence collaborator maps the
destination key to the snapshot, shadowing (overwriting) any earlier entry. -/
def torchSave (store : Store) (key : String) (snap : Snapshot) : Store :=
  (key, snap) :: store

def storeLookup : Store → String → Option Snapshot
  | [], _ => none
  | kv :: s, key => if kv.1 = key then some kv.2 else storeLookup s key

/-- Observable state of the checkpoint observer: the persisted snapshots and
the epochs at which "Found new best model" was printed (i.e. a save happened). -/
structure ObsState where
  store : Store
  printed : List ℕ
deriving DecidableEq

/-- `save_model_if_improved(model, epoch, train_losses, val_losses, val_acc,
filename)`: persist the snapshot (and print) exactly when the latest
validation loss equals the running minimum. -/
def save_model_if_improved (filename : String) : CB ObsState :=
  fun s layers epoch _tl vl _acc =>
    if shouldSave vl then
      ⟨torchSave s.store filename (state_dict layers), s.printed ++ [epoch]⟩
    else s

def matShape (A : Mat) : List ℕ := A.map List.length

def linShape (q : LinParam) : List ℕ × ℕ := (matShape q.1, q.2.length)

def snapShape (s : Snapshot) : List (List ℕ × ℕ) := s.map linShape

/-- `load_state_dict`'s walk over the model: each affine layer takes the next
snapshot entry provided its tensor shapes match; a missing or surplus entry or
a shape mismatch raises (`none`). -/
def loadParams : List Layer → Snapshot → Option (List Layer)
  | [], [] => some []
  | [], _ :: _ => none
  | Layer.linear _ _ _ _ :: _, [] => none
  | Layer.linear i o W b :: ls, q :: qs =>
    if linShape (W, b) = linShape q then
      (loadParams ls qs).map (fun ls2 => Layer.linear i o q.1 q.2 :: ls2)
    else none
  | l :: ls, qs => (loadParams ls qs).map (fun ls2 => l :: ls2)

/-- `load_model(model, path)`: `torch.load` the snapshot at the destination
(raises if absent) and `load_state_dict` it into the model. -/
def load_model (net : Net) (store : Store) (path : String) : Option Net :=
  match storeLookup store path with
  | none => none
  | some snap => (loadParams net.layers snap).map (fun ls => ⟨ls, net.grads, net.training⟩)

/-- Two models have identical architecture: same layer sequence with the same
widths, tensor shapes and drop probabilities (weights may differ). -/
def sameArch : List Layer → List Layer → Bool
  | [], [] => true
  | Layer.flatten :: l1, Layer.flatten :: l2 => sameArch l1 l2
  | Layer.relu :: l1, Layer.relu :: l2 => sameArch l1 l2
  | Layer.dropout p :: l1, Layer.dropout q :: l2 => decide (p = q) && sameArch l1 l2
  | Layer.linear i1 o1 W1 b1 :: l1, Layer.linear i2 o2 W2 b2 :: l2 =>
    decide (i1 = i2) && decide (o1 = o2) &&
      decide (linShape (W1, b1) = linShape (W2, b2)) && sameArch l1 l2
  | _, _ => false

/-- `(input width, output width)` of the first affine layer of a model. -/
def firstAffine : List Layer → Option (ℕ × ℕ)
  | [] => none
  | Layer.linear i o _ _ :: _ => some (i, o)
  | _ :: ls => firstAffine ls

/-- `(input width, output width)` of the last affine layer of a model. -/
def lastAffine (m : List Layer) : Option (ℕ × ℕ) := firstAffine m.reverse

/-- Whether the model's very last layer is an affine transform (no trailing
activation). -/
def endsWithAffine (m : List Layer) : Bool :=
  match m.getLast? with
  | some (Layer.linear _ _ _ _) => true
  | _ => false

/-- Predictions of the model on a batch in eval mode. -/
def batchPreds (ls : List Layer) (b : Batch) : List Vec := b.map (fun s => evalVec ls s.1)

/-- The loss `validate` records for one batch. -/
def batchLoss (lossFn : LossFn) (ls : List Layer) (b : Batch) : ℚ :=
  lossFn (batchPreds ls b) (b.map Prod.snd)

/-- The accuracy `validate` records for one batch. -/
def batchAcc (ls : List Layer) (b : Batch) : ℚ :=
  (countCorrect (batchPreds ls b) (b.map Prod.snd) : ℚ) / ((b.length : ℕ) : ℚ)

/-- An observer wrapper that additionally counts its invocations. -/
def countingCB {Ω : Type} (cb : CB Ω) : CB (Ω × ℕ) :=
  fun s layers e tl vl a => (cb s.1 layers e tl vl a, s.2 + 1)

/-- The evaluator loop's outcome as a pure function of the model and the
sequence: in eval mode the dropout layers are inactive, so the loop touches
no randomness. -/
def runEvalRes (f : LossFn) (ls : List Layer) : List Batch → Option (List ℚ × List ℚ)
  | [] => some ([], [])
  | b :: bs =>
    match (evalOneBatch f ls b []).2.2 with
    | none => none
    | some a =>
      match runEvalRes f ls bs with
      | none => none
      | some la => some ((evalOneBatch f ls b []).2.1 :: la.1, a :: la.2)

lemma firstAffine_cons_linear (i o : ℕ) (W : Mat) (b : Vec) (rest : List Layer) :
    firstAffine (Layer.linear i o W b :: rest) = some (i, o) := rfl

lemma firstAffine_cons_flatten (rest : List Layer) :
    firstAffine (Layer.flatten :: rest) = firstAffine rest := rfl

lemma lastAffine_concat_linear (pre : List Layer) (i o : ℕ) (W : Mat) (b : Vec) :
    lastAffine (pre ++ [Layer.linear i o W b]) = some (i, o) := by
  simp [lastAffine, List.reverse_append, firstAffine_cons_linear]

lemma endsWithAffine_concat_linear (pre : List Layer) (i o : ℕ) (W : Mat) (b : Vec) :
    endsWithAffine (pre ++ [Layer.linear i o W b]) = true := by
  simp [endsWithAffine]

/-- C1: for every non-empty `hidden_dims` and every drop probability in
`[0, 1)`, both `create_model` and `create_model_with_dropout` succeed and
return a model whose first affine transform has input width `28 * 28 = 784`,
whose last affine transform has output width 10, and whose final layer is
that affine transform (no trailing activation). -/
theorem c1_model_factories_shape (wI : ℕ → ℕ → ℚ) (bI : ℕ → ℚ) (hd : ℕ) (t : List ℕ)
    (p : ℚ) (hp0 : 0 ≤ p) (hp1 : p < 1) :
    ∃ m1 m2, create_model wI bI (hd :: t) = some m1 ∧
      create_model_with_dropout wI bI (hd :: t) p = some m2 ∧
      (firstAffine m1).map Prod.fst = some 784 ∧
      (lastAffine m1).map Prod.snd = some 10 ∧ endsWithAffine m1 = true ∧
      (firstAffine m2).map Prod.fst = some 784 ∧
      (lastAffine m2).map Prod.snd = some 10 ∧ endsWithAffine m2 = true := by
  have hcond : ¬(p < 0 ∨ 1 < p) := by
    push_neg
    exact ⟨hp0, le_of_lt hp1⟩
  refine ⟨[Layer.flatten, nnLinear wI bI (28 * 28) hd, Layer.relu] ++
      (List.zip (hd :: t).dropLast (hd :: t).tail).flatMap
        (fun io => [nnLinear wI bI io.1 io.2, Layer.relu]) ++
      [nnLinear wI bI ((hd :: t).getLast (List.cons_ne_nil hd t)) 10],
    [Layer.flatten, nnLinear wI bI (28 * 28) hd, Layer.relu, Layer.dropout p] ++
      (List.zip (hd :: t).dropLast (hd :: t).tail).flatMap
        (fun io => [nnLinear wI bI io.1 io.2, Layer.relu, Layer.dropout p]) ++
      [nnLinear wI bI ((hd :: t).getLast (List.cons_ne_nil hd t)) 10],
    rfl, ?_, ?_, ?_, ?_, ?_, ?_, ?_⟩
  · rw [create_model_with_dropout, if_neg hcond]
  · simp [List.cons_append, firstAffine_cons_flatten, nnLinear, firstAffine_cons_linear]
  · simp only [nnLinear]
    rw [lastAffine_concat_linear]
    rfl
  · simp only [nnLinear]
    rw [endsWithAffine_concat_linear]
  · simp [List.cons_append, firstAffine_cons_flatten, nnLinear, firstAffine_cons_linear]
  · simp only [nnLinear]
    rw [lastAffine_concat_linear]
    rfl
  · simp only [nnLinear]
    rw [endsWithAffine_concat_linear]

/-- C1 witness: the factories at `hidden_dims = [3]`, `p = 0`. -/
theorem c1_witness :
    (0 : ℚ) ≤ 0 ∧ (0 : ℚ) < 1 ∧
    (∃ m1 m2, create_model (fun _ _ => 0) (fun _ => 0) [3] = some m1 ∧
      create_model_with_dropout (fun _ _ => 0) (fun _ => 0) [3] 0 = some m2 ∧
      (firstAffine m1).map Prod.fst = some 784 ∧
      (lastAffine m1).map Prod.snd = some 10 ∧ endsWithAffine m1 = true ∧
      (firstAffine m2).map Prod.fst = some 784 ∧
      (lastAffine m2).map Prod.snd = some 10 ∧ endsWithAffine m2 = true) :=
  ⟨le_refl 0, zero_lt_one,
    c1_model_factories_shape (fun _ _ => 0) (fun _ => 0) 3 [] 0 (le_refl 0) zero_lt_one⟩

lemma shouldSave_cons (v : ℚ) (vs : List ℚ) :
    shouldSave (v :: vs) =
      decide ((v :: vs).getLast (List.cons_ne_nil v vs) = vs.foldl qmin v) := by
  rw [shouldSave, List.getLast?_eq_getLast_of_ne_nil (List.cons_ne_nil v vs)]
  simp [minQ]

/-- C2: the checkpoint policy persists (and prints) exactly when the latest
validation loss equals the minimum of the history so far; on the history
`[0.9, 0.7, 0.8, 0.7]` played epoch by epoch it records saves at epochs 0, 1
and 3 only; and persisting overwrites any previous snapshot at the same
destination key. -/
theorem c2_checkpoint_policy :
    (∀ (fname : String) (s : ObsState) (layers : List Layer) (e : ℕ) (tl : List ℚ)
        (v : ℚ) (vs : List ℚ) (a : ℚ),
      save_model_if_improved fname s layers e tl (v :: vs) a =
        if (v :: vs).getLast (List.cons_ne_nil v vs) = vs.foldl qmin v then
          ⟨torchSave s.store fname (state_dict layers), s.printed ++ [e]⟩
        else s) ∧
    ((List.foldl
        (fun s ev => save_model_if_improved "ckpt" s [] ev.1 [] ev.2 0)
        ⟨[], []⟩
        [(0, [(9 : ℚ) / 10]), (1, [9 / 10, 7 / 10]), (2, [9 / 10, 7 / 10, 8 / 10]),
         (3, [9 / 10, 7 / 10, 8 / 10, 7 / 10])]).printed = [0, 1, 3]) ∧
    (∀ (st : Store) (k : String) (snap : Snapshot),
      storeLookup (torchSave st k snap) k = some snap) := by
  refine ⟨?_, ?_, ?_⟩
  · intro fname s layers e tl v vs a
    rw [save_model_if_improved, shouldSave_cons]
    simp only [decide_eq_true_eq]
  · norm_num [save_model_if_improved, shouldSave, minQ, qmin, torchSave]
  · intro st k snap
    simp [torchSave, storeLookup]

lemma runBatches_length (f : LossFn) (g : GradFn) (lr : ℚ) :
    ∀ (batches : List Batch) (net : Net) (r : Rng),
      (runBatches f g lr net batches r).2.2.length = batches.length := by
  intro batches
  induction batches with
  | nil => intro net r; rfl
  | cons b bs ih => intro net r; simp [runBatches, ih]

lemma train_one_epoch_cons (f : LossFn) (g : GradFn) (lr : ℚ) (net : Net)
    (b : Batch) (bs : List Batch) (r : Rng) :
    train_one_epoch f g lr net (b :: bs) r =
      ((runBatches f g lr net (b :: bs) r).1, (runBatches f g lr net (b :: bs) r).2.1,
        some ((runBatches f g lr net (b :: bs) r).2.2.sum /
          ((((b :: bs).length : ℕ) : ℚ)))) := by
  have hlen := runBatches_length f g lr (b :: bs) net r
  have hne : (runBatches f g lr net (b :: bs) r).2.2 ≠ [] := by
    intro h0
    rw [h0] at hlen
    simp at hlen
  rw [train_one_epoch]
  simp only [if_neg hne, hlen]

/-- C4: the epoch runner's loop visits the supplied batches exactly once each,
in order (one per-batch loss per batch, produced head-first); the processing
of a batch is insensitive to the gradients left by the previous batch
(gradients cleared first), leaves the gradient buffer holding exactly the
cleared-then-accumulated gradient of this batch, and applies exactly one SGD
step to the parameters; and on a non-empty sequence `train_one_epoch` returns
the unweighted arithmetic mean of the per-batch losses. -/
theorem c4_epoch_runner (f : LossFn) (g : GradFn) (lr : ℚ) (net : Net) (b : Batch)
    (bs batches : List Batch) (r : Rng) (ls : List Layer) (g1 g2 : Snapshot) (tr : Bool) :
    (runBatches f g lr net batches r).2.2.length = batches.length ∧
    runBatches f g lr net (b :: bs) r =
      ((runBatches f g lr (processBatch f g lr net b r).1 bs
          (processBatch f g lr net b r).2.1).1,
       (runBatches f g lr (processBatch f g lr net b r).1 bs
          (processBatch f g lr net b r).2.1).2.1,
       (processBatch f g lr net b r).2.2 ::
         (runBatches f g lr (processBatch f g lr net b r).1 bs
            (processBatch f g lr net b r).2.1).2.2) ∧
    processBatch f g lr ⟨ls, g1, tr⟩ b r = processBatch f g lr ⟨ls, g2, tr⟩ b r ∧
    (processBatch f g lr net b r).1.grads =
      addSnap (zeroLike (state_dict net.layers)) (g net.layers b) ∧
    (processBatch f g lr net b r).1.layers =
      sgdStepLayers lr net.layers
        (addSnap (zeroLike (state_dict net.layers)) (g net.layers b)) ∧
    train_one_epoch f g lr net (b :: bs) r =
      ((runBatches f g lr net (b :: bs) r).1, (runBatches f g lr net (b :: bs) r).2.1,
        some ((runBatches f g lr net (b :: bs) r).2.2.sum /
          ((((b :: bs).length : ℕ) : ℚ)))) :=
  ⟨runBatches_length f g lr batches net r, rfl, rfl, rfl, rfl,
    train_one_epoch_cons f g lr net b bs r⟩

lemma applyLayer_false (l : Layer) (v : Vec) (r : Rng) :
    applyLayer false l v r = (evalLayer l v, r) := by
  cases l <;> rfl

lemma forwardVec_false (ls : List Layer) : ∀ (v : Vec) (r : Rng),
    forwardVec false ls v r = (evalVec ls v, r) := by
  induction ls with
  | nil => intro v r; rfl
  | cons l ls ih => intro v r; simp [forwardVec, applyLayer_false, evalVec, ih]

lemma forwardBatch_false (ls : List Layer) : ∀ (b : Batch) (r : Rng),
    forwardBatch false ls b r = (batchPreds ls b, r) := by
  intro b
  induction b with
  | nil => intro r; simp [forwardBatch, batchPreds]
  | cons s ss ih => intro r; simp [forwardBatch, forwardVec_false, batchPreds, ih]

lemma runEval_spec (f : LossFn) (ls : List Layer) :
    ∀ (bs : List Batch), (∀ x ∈ bs, x ≠ []) → ∀ r : Rng,
      runEval f ls bs r = (r, some (bs.map (batchLoss f ls), bs.map (batchAcc ls))) := by
  intro bs
  induction bs with
  | nil => intro _ r; rfl
  | cons b bs ih =>
    intro hne r
    have hb : b ≠ [] := hne b (by simp)
    have hrest := ih (fun x hx => hne x (by simp [hx])) r
    simp [runEval, evalOneBatch, forwardBatch_false, hb, hrest, batchLoss, batchAcc]

lemma validate_spec (f : LossFn) (net : Net) (b : Batch) (bs : List Batch)
    (h : ∀ x ∈ b :: bs, x ≠ []) (r : Rng) :
    validate f net (b :: bs) r =
      (⟨net.layers, net.grads, true⟩, r,
        some ((((b :: bs).map (batchLoss f net.layers)).sum /
                 ((((b :: bs).length : ℕ)) : ℚ)),
              (((b :: bs).map (batchAcc net.layers)).sum /
                 ((((b :: bs).length : ℕ)) : ℚ)))) := by
  rw [validate]
  simp [runEval_spec f net.layers (b :: bs) h r]

/-- C6: on a non-empty evaluation sequence whose batches are non-empty, the
evaluator returns the mean of the per-batch losses and the mean of the
per-batch accuracies, each batch weighted equally (the divisor is the number
of batches, not the number of samples), and leaves the model's parameters
(and gradients) unchanged. -/
theorem c6_evaluator_means (f : LossFn) (net : Net) (b : Batch) (bs : List Batch)
    (h : ∀ x ∈ b :: bs, x ≠ []) (r : Rng) :
    validate f net (b :: bs) r =
      (⟨net.layers, net.grads, true⟩, r,
        some ((((b :: bs).map (batchLoss f net.layers)).sum /
                 ((((b :: bs).length : ℕ)) : ℚ)),
              (((b :: bs).map (batchAcc net.layers)).sum /
                 ((((b :: bs).length : ℕ)) : ℚ)))) :=
  validate_spec f net b bs h r

/-- C6 witness: a one-batch evaluation sequence. -/
theorem c6_witness :
    (∀ x ∈ [[(([1] : Vec), 0)]], x ≠ []) ∧
    validate (fun _ _ => 0) ⟨[], [], true⟩ [[(([1] : Vec), 0)]] [] =
      (⟨[], [], true⟩, [],
        some ((([[(([1] : Vec), 0)]].map (batchLoss (fun _ _ => 0) [])).sum /
                 (((([[(([1] : Vec), 0)]].length : ℕ)) : ℚ))),
              (([[(([1] : Vec), 0)]].map (batchAcc [])).sum /
                 (((([[(([1] : Vec), 0)]].length : ℕ)) : ℚ))))) :=
  ⟨by decide, c6_evaluator_means (fun _ _ => 0) ⟨[], [], true⟩ [(([1] : Vec), 0)] []
    (by decide) []⟩

lemma evalOneBatch_rng (f : LossFn) (ls : List Layer) (b : Batch) (r : Rng) :
    evalOneBatch f ls b r = (r, (evalOneBatch f ls b []).2) := by
  simp [evalOneBatch, forwardBatch_false]

lemma runEval_eq_res (f : LossFn) (ls : List Layer) :
    ∀ (bs : List Batch) (r : Rng), runEval f ls bs r = (r, runEvalRes f ls bs) := by
  intro bs
  induction bs with
  | nil => intro r; rfl
  | cons b bs2 ih =>
    intro r
    simp only [runEval, runEvalRes, evalOneBatch_rng f ls b r]
    cases hacc : (evalOneBatch f ls b []).2.2 with
    | none => simp
    | some a =>
      simp only [ih r, ih []]
      cases hres : runEvalRes f ls bs2 <;> simp

/-- C9: the evaluator is deterministic — on a model with stochastic zeroing
disabled (training flag cleared) its (loss, accuracy) outcome and final model
state do not depend on the randomness stream: two calls with arbitrary
streams agree, and the stream is returned unconsumed. -/
theorem c9_evaluator_deterministic (f : LossFn) (ls : List Layer) (gs : Snapshot)
    (bs : List Batch) (r1 r2 : Rng) :
    (validate f ⟨ls, gs, false⟩ bs r1).2.2 = (validate f ⟨ls, gs, false⟩ bs r2).2.2 ∧
    (validate f ⟨ls, gs, false⟩ bs r1).1 = (validate f ⟨ls, gs, false⟩ bs r2).1 ∧
    (validate f ⟨ls, gs, false⟩ bs r1).2.1 = r1 := by
  simp only [validate, runEval_eq_res]
  cases hres : runEvalRes f ls bs with
  | none => simp
  | some la =>
    by_cases hla : la.1 = [] <;> simp [hla]

/-- C5 counterexample: a model entering the evaluator with the training-mode
flag cleared comes back with the flag set — the evaluator does not restore
the caller's flag, it unconditionally ends in training mode. -/
theorem c5_flag_restored_cex :
    ¬ ((validate (fun _ _ => 0) ⟨[], [], false⟩ [[(([1] : Vec), 0)]] []).1.training
        = (Net.mk [] [] false).training) := by
  intro hcontra
  rw [validate_spec (fun _ _ => 0) ⟨[], [], false⟩ [(([1] : Vec), 0)] [] (by decide) []]
    at hcontra
  simp at hcontra

/-- C5 (amended): whenever the evaluator returns normally, the model's
training-mode flag is set on return; so the flag equals its pre-call value
exactly when the model entered in training mode (as it always does in this
script), not for every model. -/
theorem c5_flag_after_validate (f : LossFn) (net : Net) (bs : List Batch) (r : Rng)
    (h : (validate f net bs r).2.2 ≠ none) :
    (validate f net bs r).1.training = true := by
  simp only [validate] at h ⊢
  cases hres : (runEval f net.layers bs r).2 with
  | none => simp [hres] at h
  | some la =>
    by_cases hla : la.1 = [] <;> simp [hres, hla] at h ⊢

/-- C5 witness: a successful evaluation, after which the flag is set. -/
theorem c5_flag_after_validate_witness :
    ((validate (fun _ _ => 0) ⟨[], [], false⟩ [[(([1] : Vec), 0)]] []).2.2 ≠ none) ∧
    (validate (fun _ _ => 0) ⟨[], [], false⟩ [[(([1] : Vec), 0)]] []).1.training = true := by
  have hne : (validate (fun _ _ => 0) (⟨[], [], false⟩ : Net) [[(([1] : Vec), 0)]] []).2.2
      ≠ none := by
    rw [validate_spec (fun _ _ => 0) ⟨[], [], false⟩ [(([1] : Vec), 0)] [] (by decide) []]
    simp
  exact ⟨hne, c5_flag_after_validate (fun _ _ => 0) ⟨[], [], false⟩ [[(([1] : Vec), 0)]] [] hne⟩

/-- C7: on an empty input sequence both the epoch runner and the evaluator hit
the unhandled division by zero when averaging over zero batches (modelled as
`none`); on a non-empty sequence (with non-empty batches for the evaluator's
per-batch accuracy divisions) the mean is well-defined and no error occurs. -/
theorem c7_empty_sequence_divzero (f : LossFn) (g : GradFn) (lr : ℚ) (net : Net)
    (r : Rng) (b : Batch) (bs : List Batch) (hv : ∀ x ∈ b :: bs, x ≠ []) :
    (train_one_epoch f g lr net [] r).2.2 = none ∧
    (validate f net [] r).2.2 = none ∧
    (train_one_epoch f g lr net (b :: bs) r).2.2 ≠ none ∧
    (validate f net (b :: bs) r).2.2 ≠ none := by
  refine ⟨rfl, rfl, ?_, ?_⟩
  · rw [train_one_epoch_cons]
    simp
  · rw [validate_spec f net b bs hv r]
    simp

/-- C7 witness: the empty sequence errors, the one-batch sequence does not. -/
theorem c7_witness :
    (∀ x ∈ [[(([1] : Vec), 0)]], x ≠ []) ∧
    ((train_one_epoch (fun _ _ => 0) (fun _ _ => []) 0 ⟨[], [], true⟩ [] []).2.2 = none ∧
     (validate (fun _ _ => 0) ⟨[], [], true⟩ [] []).2.2 = none ∧
     (train_one_epoch (fun _ _ => 0) (fun _ _ => []) 0 ⟨[], [], true⟩
        [[(([1] : Vec), 0)]] []).2.2 ≠ none ∧
     (validate (fun _ _ => 0) ⟨[], [], true⟩ [[(([1] : Vec), 0)]] []).2.2 ≠ none) :=
  ⟨by decide,
    c7_empty_sequence_divzero (fun _ _ => 0) (fun _ _ => []) 0 ⟨[], [], true⟩ []
      [(([1] : Vec), 0)] [] (by decide)⟩

lemma trainLoop_hist {Ω : Type} (f : LossFn) (g : GradFn) (lr : ℚ) (cb : CB Ω)
    (tb : Batch) (tbs : List Batch) (vb : Batch) (vbs : List Batch)
    (hv : ∀ x ∈ vb :: vbs, x ≠ []) :
    ∀ (k epoch : ℕ) (net : Net) (tl vl : List ℚ) (obs : Ω) (r : Rng),
      ∃ p : List ℚ × List ℚ,
        (trainLoop f g lr cb (tb :: tbs) (vb :: vbs) k epoch net tl vl obs r).1 = some p ∧
        p.1.length = tl.length + k ∧ p.2.length = vl.length + k := by
  intro k
  induction k with
  | zero =>
    intro epoch net tl vl obs r
    exact ⟨(tl, vl), rfl, by simp, by simp⟩
  | succ k ih =>
    intro epoch net tl vl obs r
    have hval : ∀ (nn : Net) (r' : Rng), validate f nn (vb :: vbs) r' =
        (⟨nn.layers, nn.grads, true⟩, r',
          some ((((vb :: vbs).map (batchLoss f nn.layers)).sum /
                   ((((vb :: vbs).length : ℕ)) : ℚ)),
                (((vb :: vbs).map (batchAcc nn.layers)).sum /
                   ((((vb :: vbs).length : ℕ)) : ℚ)))) :=
      fun nn r' => validate_spec f nn vb vbs hv r'
    obtain ⟨net1, r1, tloss, htoe⟩ :
        ∃ net1 r1 tloss, train_one_epoch f g lr net (tb :: tbs) r = (net1, r1, some tloss) :=
      ⟨_, _, _, train_one_epoch_cons f g lr net tb tbs r⟩
    obtain ⟨p, hp1, hp2, hp3⟩ := ih (epoch + 1) ⟨net1.layers, net1.grads, true⟩
      (tl ++ [tloss])
      (vl ++ [((vb :: vbs).map (batchLoss f net1.layers)).sum /
        ((((vb :: vbs).length : ℕ)) : ℚ)])
      (cb obs net1.layers epoch (tl ++ [tloss])
        (vl ++ [((vb :: vbs).map (batchLoss f net1.layers)).sum /
          ((((vb :: vbs).length : ℕ)) : ℚ)])
        (((vb :: vbs).map (batchAcc net1.layers)).sum /
          ((((vb :: vbs).length : ℕ)) : ℚ)))
      r1
    refine ⟨p, ?_, ?_, ?_⟩
    · simp only [trainLoop, htoe, hval]
      exact hp1
    · simp only [List.length_append, List.length_singleton] at hp2
      omega
    · simp only [List.length_append, List.length_singleton] at hp3
      omega

lemma trainLoop_count {Ω : Type} (f : LossFn) (g : GradFn) (lr : ℚ) (cb : CB Ω)
    (tb : Batch) (tbs : List Batch) (vb : Batch) (vbs : List Batch)
    (hv : ∀ x ∈ vb :: vbs, x ≠ []) :
    ∀ (k epoch : ℕ) (net : Net) (tl vl : List ℚ) (obs : Ω) (c : ℕ) (r : Rng),
      ((trainLoop f g lr (countingCB cb) (tb :: tbs) (vb :: vbs) k epoch net tl vl
          (obs, c) r).2.2.1).2 = c + k := by
  intro k
  induction k with
  | zero =>
    intro epoch net tl vl obs c r
    simp [trainLoop]
  | succ k ih =>
    intro epoch net tl vl obs c r
    have hval : ∀ (nn : Net) (r' : Rng), validate f nn (vb :: vbs) r' =
        (⟨nn.layers, nn.grads, true⟩, r',
          some ((((vb :: vbs).map (batchLoss f nn.layers)).sum /
                   ((((vb :: vbs).length : ℕ)) : ℚ)),
                (((vb :: vbs).map (batchAcc nn.layers)).sum /
                   ((((vb :: vbs).length : ℕ)) : ℚ)))) :=
      fun nn r' => validate_spec f nn vb vbs hv r'
    obtain ⟨net1, r1, tloss, htoe⟩ :
        ∃ net1 r1 tloss, train_one_epoch f g lr net (tb :: tbs) r = (net1, r1, some tloss) :=
      ⟨_, _, _, train_one_epoch_cons f g lr net tb tbs r⟩
    simp only [trainLoop, htoe, hval, countingCB]
    rw [ih]
    omega

/-- C3: the training orchestrator performs exactly `n` epochs with no
early-exit — whatever the observer and whatever loss values the oracles
produce, it returns `some` histories of length exactly `n` and invokes the
observer exactly once per epoch (an invocation-counting wrapper around any
observer ends at `n`); with `n = 0` it returns two empty histories, an
untouched observer state and an untouched model. -/
theorem c3_orchestrator_epochs {Ω : Type} (cb : CB Ω) (obs : Ω) (f : LossFn)
    (g : GradFn) (lr : ℚ) (net : Net) (tb : Batch) (tbs : List Batch) (vb : Batch)
    (vbs : List Batch) (hv : ∀ x ∈ vb :: vbs, x ≠ []) (n : ℕ) (r : Rng) :
    (∃ p : List ℚ × List ℚ,
        (train f g lr net (tb :: tbs) (vb :: vbs) n cb obs r).1 = some p ∧
        p.1.length = n ∧ p.2.length = n) ∧
    ((train f g lr net (tb :: tbs) (vb :: vbs) n (countingCB cb) (obs, 0) r).2.2.1).2 = n ∧
    (∀ (tB vB : List Batch) (net0 : Net) (r0 : Rng),
      train f g lr net0 tB vB 0 cb obs r0 = (some ([], []), net0, obs, r0)) := by
  refine ⟨?_, ?_, fun tB vB net0 r0 => rfl⟩
  · have h := trainLoop_hist f g lr cb tb tbs vb vbs hv n 0 net [] [] obs r
    simpa [train] using h
  · have h := trainLoop_count f g lr cb tb tbs vb vbs hv n 0 net [] [] obs 0 r
    simpa [train] using h

/-- C3 witness: a two-epoch run on one-batch loaders. -/
theorem c3_witness :
    (∀ x ∈ [[(([1] : Vec), 0)]], x ≠ []) ∧
    ((∃ p : List ℚ × List ℚ,
        (train (fun _ _ => 0) (fun _ _ => []) 0 ⟨[], [], true⟩ [[(([1] : Vec), 0)]]
          [[(([1] : Vec), 0)]] 2 (fun o _ _ _ _ _ => o) (0 : ℕ) []).1 = some p ∧
        p.1.length = 2 ∧ p.2.length = 2) ∧
      ((train (fun _ _ => 0) (fun _ _ => []) 0 ⟨[], [], true⟩ [[(([1] : Vec), 0)]]
          [[(([1] : Vec), 0)]] 2 (countingCB (fun o _ _ _ _ _ => o)) ((0 : ℕ), 0)
          []).2.2.1).2 = 2 ∧
      (∀ (tB vB : List Batch) (net0 : Net) (r0 : Rng),
        train (fun _ _ => 0) (fun _ _ => []) 0 net0 tB vB 0 (fun o _ _ _ _ _ => o)
          (0 : ℕ) r0 = (some ([], []), net0, 0, r0))) :=
  ⟨by decide,
    c3_orchestrator_epochs (fun o _ _ _ _ _ => o) 0 (fun _ _ => 0) (fun _ _ => []) 0
      ⟨[], [], true⟩ [(([1] : Vec), 0)] [] [(([1] : Vec), 0)] [] (by decide) 2 []⟩

lemma shouldSave_singleton (v : ℚ) : shouldSave [v] = true := by
  simp [shouldSave_cons]

lemma save_model_if_improved_inv (fname : String) (s : ObsState) (layers : List Layer)
    (e : ℕ) (tl vl : List ℚ) (a : ℚ) (h1 : s.printed.head? = some 0)
    (h2 : storeLookup s.store fname ≠ none) :
    (save_model_if_improved fname s layers e tl vl a).printed.head? = some 0 ∧
    storeLookup (save_model_if_improved fname s layers e tl vl a).store fname ≠ none := by
  rw [save_model_if_improved]
  by_cases hs : shouldSave vl
  · simp only [hs, if_true]
    constructor
    · cases hp : s.printed with
      | nil => rw [hp] at h1; simp at h1
      | cons q qs =>
        rw [hp] at h1
        simpa using h1
    · simp [torchSave, storeLookup]
  · simp only [hs, if_false]
    exact ⟨h1, h2⟩

lemma trainLoop_save_inv (f : LossFn) (g : GradFn) (lr : ℚ) (fname : String)
    (tB vB : List Batch) :
    ∀ (k epoch : ℕ) (net : Net) (tl vl : List ℚ) (obs : ObsState) (r : Rng),
      obs.printed.head? = some 0 → storeLookup obs.store fname ≠ none →
      ((trainLoop f g lr (save_model_if_improved fname) tB vB k epoch net tl vl
            obs r).2.2.1).printed.head? = some 0 ∧
        storeLookup ((trainLoop f g lr (save_model_if_improved fname) tB vB k epoch net
            tl vl obs r).2.2.1).store fname ≠ none := by
  intro k
  induction k with
  | zero => intro epoch net tl vl obs r h1 h2; exact ⟨h1, h2⟩
  | succ k ih =>
    intro epoch net tl vl obs r h1 h2
    simp only [trainLoop]
    cases htoe : (train_one_epoch f g lr net tB r).2.2 with
    | none => simpa using ⟨h1, h2⟩
    | some tloss =>
      simp only []
      cases hv2 : (validate f (train_one_epoch f g lr net tB r).1 vB
          (train_one_epoch f g lr net tB r).2.1).2.2 with
      | none => simpa using ⟨h1, h2⟩
      | some lv =>
        simp only []
        obtain ⟨g1, g2⟩ := save_model_if_improved_inv fname obs
          (validate f (train_one_epoch f g lr net tB r).1 vB
            (train_one_epoch f g lr net tB r).2.1).1.layers
          epoch (tl ++ [tloss]) (vl ++ [lv.1]) lv.2 h1 h2
        exact ih (epoch + 1) _ (tl ++ [tloss]) (vl ++ [lv.1]) _ _ g1 g2

lemma save_first (fname : String) (store0 : Store) (layers : List Layer) (e : ℕ)
    (tl : List ℚ) (v : ℚ) (a : ℚ) :
    save_model_if_improved fname ⟨store0, []⟩ layers e tl [v] a =
      ⟨torchSave store0 fname (state_dict layers), [e]⟩ := by
  rw [save_model_if_improved]
  simp [shouldSave_singleton]

/-- C10: with at least one epoch and the checkpoint observer attached, a
snapshot is always persisted at epoch 0 — whatever the validation loss value,
a one-element history equals its own minimum, so after the run the first
recorded save is at epoch 0 and the destination key is populated. -/
theorem c10_epoch_zero_checkpoint (f : LossFn) (g : GradFn) (lr : ℚ) (net : Net)
    (tb : Batch) (tbs : List Batch) (vb : Batch) (vbs : List Batch)
    (hv : ∀ x ∈ vb :: vbs, x ≠ []) (fname : String) (store0 : Store) (r : Rng) (n : ℕ) :
    ((train f g lr net (tb :: tbs) (vb :: vbs) (n + 1) (save_model_if_improved fname)
        ⟨store0, []⟩ r).2.2.1).printed.head? = some 0 ∧
    storeLookup ((train f g lr net (tb :: tbs) (vb :: vbs) (n + 1)
        (save_model_if_improved fname) ⟨store0, []⟩ r).2.2.1).store fname ≠ none := by
  have hval : ∀ (nn : Net) (r' : Rng), validate f nn (vb :: vbs) r' =
      (⟨nn.layers, nn.grads, true⟩, r',
        some ((((vb :: vbs).map (batchLoss f nn.layers)).sum /
                 ((((vb :: vbs).length : ℕ)) : ℚ)),
              (((vb :: vbs).map (batchAcc nn.layers)).sum /
                 ((((vb :: vbs).length : ℕ)) : ℚ)))) :=
    fun nn r' => validate_spec f nn vb vbs hv r'
  obtain ⟨net1, r1, tloss, htoe⟩ :
      ∃ net1 r1 tloss, train_one_epoch f g lr net (tb :: tbs) r = (net1, r1, some tloss) :=
    ⟨_, _, _, train_one_epoch_cons f g lr net tb tbs r⟩
  rw [train]
  simp only [trainLoop, htoe, hval, List.nil_append, save_first]
  exact trainLoop_save_inv f g lr fname (tb :: tbs) (vb :: vbs) n 1 _ _ _ _ _
    rfl (by simp [torchSave, storeLookup])

/-- C10 witness: a one-epoch run persists at epoch 0. -/
theorem c10_witness :
    (∀ x ∈ [[(([1] : Vec), 0)]], x ≠ []) ∧
    (((train (fun _ _ => 0) (fun _ _ => []) 0 ⟨[], [], true⟩ [[(([1] : Vec), 0)]]
        [[(([1] : Vec), 0)]] (0 + 1) (save_model_if_improved "ckpt")
        ⟨[], []⟩ []).2.2.1).printed.head? = some 0 ∧
      storeLookup ((train (fun _ _ => 0) (fun _ _ => []) 0 ⟨[], [], true⟩
        [[(([1] : Vec), 0)]] [[(([1] : Vec), 0)]] (0 + 1)
        (save_model_if_improved "ckpt") ⟨[], []⟩ []).2.2.1).store "ckpt" ≠ none) :=
  ⟨by decide,
    c10_epoch_zero_checkpoint (fun _ _ => 0) (fun _ _ => []) 0 ⟨[], [], true⟩
      [(([1] : Vec), 0)] [] [(([1] : Vec), 0)] [] (by decide) "ckpt" [] [] 0⟩

lemma loadParams_sameArch : ∀ (m1 m2 : List Layer), sameArch m1 m2 = true →
    loadParams m2 (state_dict m1) = some m1 := by
  intro m1
  induction m1 with
  | nil =>
    intro m2 h
    cases m2 with
    | nil => rfl
    | cons l2 ls2 => cases l2 <;> simp [sameArch] at h
  | cons l1 ls1 ih =>
    intro m2 h
    cases m2 with
    | nil => cases l1 <;> simp [sameArch] at h
    | cons l2 ls2 =>
      cases l1 with
      | flatten =>
        cases l2 <;> simp [sameArch] at h
        simp [state_dict, loadParams, ih ls2 h]
      | relu =>
        cases l2 <;> simp [sameArch] at h
        simp [state_dict, loadParams, ih ls2 h]
      | dropout p1 =>
        cases l2 <;> simp [sameArch] at h
        obtain ⟨hp, hrec⟩ := h
        subst hp
        simp [state_dict, loadParams, ih ls2 hrec]
      | linear i1 o1 W1 b1 =>
        cases l2 with
        | flatten => simp [sameArch] at h
        | relu => simp [sameArch] at h
        | dropout p2 => simp [sameArch] at h
        | linear i2 o2 W2 b2 =>
          simp only [sameArch, Bool.and_eq_true, decide_eq_true_eq] at h
          obtain ⟨⟨⟨hi, ho⟩, hsh⟩, hrec⟩ := h
          subst hi
          subst ho
          simp only [state_dict, loadParams, if_pos hsh.symm, ih ls2 hrec]
          rfl

lemma loadParams_shape : ∀ (ls : List Layer) (snap : Snapshot),
    loadParams ls snap ≠ none → snapShape (state_dict ls) = snapShape snap := by
  intro ls
  induction ls with
  | nil =>
    intro snap h
    cases snap with
    | nil => rfl
    | cons q qs => simp [loadParams] at h
  | cons l ls ih =>
    intro snap h
    cases l with
    | flatten =>
      simp only [loadParams] at h
      have hin : loadParams ls snap ≠ none := by
        intro h0
        rw [h0] at h
        exact h rfl
      simpa [state_dict] using ih snap hin
    | relu =>
      simp only [loadParams] at h
      have hin : loadParams ls snap ≠ none := by
        intro h0
        rw [h0] at h
        exact h rfl
      simpa [state_dict] using ih snap hin
    | dropout p =>
      simp only [loadParams] at h
      have hin : loadParams ls snap ≠ none := by
        intro h0
        rw [h0] at h
        exact h rfl
      simpa [state_dict] using ih snap hin
    | linear i o W b =>
      cases snap with
      | nil => simp [loadParams] at h
      | cons q qs =>
        simp only [loadParams] at h
        by_cases hsh : linShape (W, b) = linShape q
        · rw [if_pos hsh] at h
          have hin : loadParams ls qs ≠ none := by
            intro h0
            rw [h0] at h
            exact h rfl
          have hrec := ih qs hin
          simp only [snapShape] at hrec
          simp [snapShape, state_dict, hsh, hrec]
        · rw [if_neg hsh] at h
          exact absurd rfl h

lemma validate_snd_of_layers (f : LossFn) (na nb : Net) (bs : List Batch) (r : Rng)
    (h : na.layers = nb.layers) : (validate f na bs r).2 = (validate f nb bs r).2 := by
  simp only [validate, h]
  cases hres : (runEval f nb.layers bs r).2 with
  | none => rfl
  | some la => by_cases hla : la.1 = [] <;> simp [hla]

/-- C8: saving a model's parameter snapshot and reloading it into a freshly
constructed model of identical architecture succeeds and reproduces the
original parameters, hence the identical evaluation (loss, accuracy) outcome
on any fixed dataset; reloading fails when the destination key is absent or
when the snapshot's parameter shapes do not match the target model. -/
theorem c8_checkpoint_roundtrip (f : LossFn) (net1 net2 : Net) (store : Store)
    (key : String) (bs : List Batch) (r : Rng)
    (h : sameArch net1.layers net2.layers = true) :
    (∃ net3, load_model net2 (torchSave store key (state_dict net1.layers)) key
        = some net3 ∧
      net3.layers = net1.layers ∧
      (validate f net3 bs r).2.2 = (validate f net1 bs r).2.2) ∧
    (∀ (nn : Net) (st : Store) (pth : String), storeLookup st pth = none →
      load_model nn st pth = none) ∧
    (∀ (nn : Net) (snap : Snapshot), snapShape (state_dict nn.layers) ≠ snapShape snap →
      load_model nn (torchSave store key snap) key = none) := by
  refine ⟨?_, ?_, ?_⟩
  · have hload := loadParams_sameArch net1.layers net2.layers h
    refine ⟨⟨net1.layers, net2.grads, net2.training⟩, ?_, rfl, ?_⟩
    · have hkey : storeLookup (torchSave store key (state_dict net1.layers)) key
          = some (state_dict net1.layers) := by
        simp [torchSave, storeLookup]
      rw [load_model, hkey]
      simp [hload]
    · exact congrArg Prod.snd
        (validate_snd_of_layers f ⟨net1.layers, net2.grads, net2.training⟩ net1 bs r rfl)
  · intro nn st pth hnone
    rw [load_model, hnone]
  · intro nn snap hsh
    have hkey : storeLookup (torchSave store key snap) key = some snap := by
      simp [torchSave, storeLookup]
    rw [load_model, hkey]
    cases hlp : loadParams nn.layers snap with
    | none => simp [hlp]
    | some ls => exact absurd (loadParams_shape nn.layers snap (by simp [hlp])) hsh

/-- C8 witness: round trip between two one-affine-layer models of identical
architecture but different weights. -/
theorem c8_witness :
    sameArch [Layer.linear 1 1 [[1]] [0]] [Layer.linear 1 1 [[2]] [3]] = true ∧
    ((∃ net3, load_model ⟨[Layer.linear 1 1 [[2]] [3]], [], true⟩
        (torchSave [] "ckpt" (state_dict [Layer.linear 1 1 [[1]] [0]])) "ckpt"
          = some net3 ∧
      net3.layers = [Layer.linear 1 1 [[1]] [0]] ∧
      (validate (fun _ _ => 0) net3 [] []).2.2 =
        (validate (fun _ _ => 0) ⟨[Layer.linear 1 1 [[1]] [0]], [], true⟩ [] []).2.2) ∧
    (∀ (nn : Net) (st : Store) (pth : String), storeLookup st pth = none →
      load_model nn st pth = none) ∧
    (∀ (nn : Net) (snap : Snapshot), snapShape (state_dict nn.layers) ≠ snapShape snap →
      load_model nn (torchSave [] "ckpt" snap) "ckpt" = none)) :=
  ⟨by decide,
    c8_checkpoint_roundtrip (fun _ _ => 0) ⟨[Layer.linear 1 1 [[1]] [0]], [], true⟩
      ⟨[Layer.linear 1 1 [[2]] [3]], [], true⟩ [] "ckpt" [] [] (by decide)⟩
